import Mathlib

/-!
Verification of Chrome DevTools front-end excerpts: the `ArrayUtilities`
helpers exercised by the unit test, the trace initiator-pair finder used by
the performance flamechart, the BiDi `Frame` lifecycle, and the visual
logging driver.  JavaScript objects are modelled by natural-number
identifiers, JS `Map`s by association lists, and the driver's mutable
module state by explicit state records.
-/

namespace DevtoolsModel

/-- Association-list lookup, modelling `Map.prototype.get`. -/
def lookup {κ β : Type} [DecidableEq κ] (k : κ) : List (κ × β) → Option β
  | [] => none
  | p :: rest => if p.1 = k then some p.2 else lookup k rest

/-- Association-list update, modelling `Map.prototype.set`: replace the entry
in place when the key is present, otherwise append at the end. -/
def mapSet {κ β : Type} [DecidableEq κ] (k : κ) (v : β) : List (κ × β) → List (κ × β)
  | [] => [(k, v)]
  | p :: rest => if p.1 = k then (k, v) :: rest else p :: mapSet k v rest

/-- Association-list removal, modelling `Map.prototype.delete`. -/
def mapDelete {κ β : Type} [DecidableEq κ] (k : κ) : List (κ × β) → List (κ × β)
  | [] => []
  | p :: rest => if p.1 = k then rest else p :: mapDelete k rest

theorem lookup_mapSet_self {κ β : Type} [DecidableEq κ] (k : κ) (v : β) :
    ∀ l : List (κ × β), lookup k (mapSet k v l) = some v := by
  intro l
  induction l with
  | nil => simp [mapSet, lookup]
  | cons p rest ih =>
    by_cases h : p.1 = k
    · simp [mapSet, lookup, h]
    · simp [mapSet, lookup, h, ih]

theorem lookup_mapSet_ne {κ β : Type} [DecidableEq κ] (k j : κ) (v : β)
    (hne : k ≠ j) : ∀ l : List (κ × β), lookup j (mapSet k v l) = lookup j l := by
  intro l
  induction l with
  | nil => simp [mapSet, lookup, hne]
  | cons p rest ih =>
    by_cases h : p.1 = k
    · simp [mapSet, lookup, h, hne]
    · simp [mapSet, lookup, h, ih]

theorem mapDelete_mapSet_of_lookup_none {κ β : Type} [DecidableEq κ] (k : κ) (v : β) :
    ∀ l : List (κ × β), lookup k l = none → mapDelete k (mapSet k v l) = l := by
  intro l
  induction l with
  | nil => intro _; simp [mapSet, mapDelete]
  | cons p rest ih =>
    intro hnone
    by_cases h : p.1 = k
    · simp [lookup, h] at hnone
    · simp [lookup, h] at hnone
      simp [mapSet, mapDelete, h, ih hnone]

theorem lookup_mem {κ β : Type} [DecidableEq κ] (k : κ) (v : β) :
    ∀ l : List (κ × β), lookup k l = some v → (k, v) ∈ l := by
  intro l
  induction l with
  | nil => intro h; simp [lookup] at h
  | cons p rest ih =>
    intro h
    by_cases hk : p.1 = k
    · simp [lookup, hk] at h
      cases p
      simp_all
    · simp [lookup, hk] at h
      exact List.mem_cons_of_mem _ (ih h)

end DevtoolsModel

namespace ArrayUtilities

/-- Removes the first occurrence of `v` from the list, keeping everything else
in order; the list is unchanged when `v` is absent. -/
def removeFirst {α : Type} [DecidableEq α] : List α → α → List α
  | [], _ => []
  | x :: xs, v => if x = v then xs else x :: removeFirst xs v

/-- Modelled from the spec: `Platform.ArrayUtilities.removeElement` itself is
not part of the source excerpt, only its unit test is.  Per the test,
`removeElement a v firstOnly` removes the first occurrence of `v` when
`firstOnly` is `true` and every occurrence of `v` when `firstOnly` is `false`,
keeping the remaining elements in their original relative order. -/
def removeElement {α : Type} [DecidableEq α] (a : List α) (v : α) (firstOnly : Bool) : List α :=
  if firstOnly then removeFirst a v else a.filter (fun x => x ≠ v)

/-- The fully sorted copy of the subrange `a[left .. right]`. -/
def sortedSubrange {α : Type} [LinearOrder α] (a : List α) (left right : Nat) : List α :=
  List.insertionSort (fun x y => x ≤ y) ((a.drop left).take (right + 1 - left))

/-- Modelled from the spec: `Platform.ArrayUtilities.sortRange` itself is not
part of the source excerpt, only its unit test is.  The test specifies that
`sortRange a comparator left right sortWindowLeft sortWindowRight` leaves
every element outside `[left, right]` untouched, leaves the window
`[sortWindowLeft, sortWindowRight]` equal to the corresponding slice of the
sorted subrange `[left, right]`, and leaves the rest of the subrange a
permutation of the rest of that sorted subrange.  The model realises these
guarantees by sorting the whole subrange. -/
def sortRange {α : Type} [LinearOrder α] (a : List α)
    (left right _sortWindowLeft _sortWindowRight : Nat) : List α :=
  a.take left ++ sortedSubrange a left right ++ a.drop (right + 1)

theorem removeFirst_of_not_mem {α : Type} [DecidableEq α] {v : α} :
    ∀ {a : List α}, v ∉ a → removeFirst a v = a := by
  intro a
  induction a with
  | nil => intro _; rfl
  | cons x xs ih =>
    intro h
    have hx : x ≠ v := fun hxv => h (hxv ▸ List.mem_cons_self x xs)
    have hxs : v ∉ xs := fun hm => h (List.mem_cons_of_mem x hm)
    simp [removeFirst, hx, ih hxs]

theorem removeFirst_of_mem {α : Type} [DecidableEq α] {v : α} :
    ∀ {a : List α}, v ∈ a →
      ∃ p q, a = p ++ v :: q ∧ v ∉ p ∧ removeFirst a v = p ++ q := by
  intro a
  induction a with
  | nil => intro h; cases h
  | cons x xs ih =>
    intro h
    by_cases hx : x = v
    · exact ⟨[], xs, by simp [hx], by simp, by simp [removeFirst, hx]⟩
    · have hm : v ∈ xs := by
        cases h with
        | head => exact absurd rfl hx
        | tail _ hm => exact hm
      obtain ⟨p, q, hsplit, hnp, hrm⟩ := ih hm
      refine ⟨x :: p, q, by simp [hsplit], ?_, by simp [removeFirst, hx, hrm]⟩
      intro hvp
      cases hvp with
      | head => exact hx rfl
      | tail _ hvp => exact hnp hvp

theorem removeFirst_sublist {α : Type} [DecidableEq α] (v : α) :
    ∀ a : List α, List.Sublist (removeFirst a v) a := by
  intro a
  induction a with
  | nil => exact List.Sublist.refl _
  | cons x xs ih =>
    by_cases hx : x = v
    · simp only [removeFirst, if_pos hx]
      exact List.sublist_cons_self x xs
    · simpa [removeFirst, hx] using List.Sublist.cons₂ x ih

/-- Claim C3: `removeElement` with `firstOnly = true` removes exactly the first
occurrence of the value (and leaves the array unchanged when the value is
absent), with `firstOnly = false` it removes every occurrence, and in both
cases the relative order of the remaining elements is preserved (stated via
`List.Sublist` and element counts). -/
theorem removeElement_spec {α : Type} [DecidableEq α] (a : List α) (v : α) :
    (v ∉ a → removeElement a v true = a) ∧
    (v ∈ a → ∃ p q, a = p ++ v :: q ∧ v ∉ p ∧ removeElement a v true = p ++ q) ∧
    List.Sublist (removeElement a v true) a ∧
    List.Sublist (removeElement a v false) a ∧
    v ∉ removeElement a v false ∧
    (∀ x, x ≠ v → List.count x (removeElement a v false) = List.count x a) := by
  refine ⟨?_, ?_, ?_, ?_, ?_, ?_⟩
  · intro h; simpa [removeElement] using removeFirst_of_not_mem h
  · intro h; simpa [removeElement] using removeFirst_of_mem h
  · simp only [removeElement, if_true]
    exact removeFirst_sublist v a
  · simp only [removeElement, if_neg (Bool.false_ne_true)]
    exact List.filter_sublist a
  · simp [removeElement]
  · intro x hx
    simp only [removeElement, if_neg (Bool.false_ne_true)]
    rw [List.count_filter]
    simp [hx]

theorem removeElement_spec_witness :
    (2 ∈ ([1, 2, 3, 4, 5, 4, 3, 2, 1] : List Nat)) ∧
    (∃ p q, ([1, 2, 3, 4, 5, 4, 3, 2, 1] : List Nat) = p ++ 2 :: q ∧ 2 ∉ p ∧
      removeElement [1, 2, 3, 4, 5, 4, 3, 2, 1] 2 true = p ++ q) :=
  ⟨by decide, (removeElement_spec [1, 2, 3, 4, 5, 4, 3, 2, 1] 2).2.1 (by decide)⟩

example : removeElement [1, 2, 3, 4, 5, 4, 3, 2, 1] 2 true = [1, 3, 4, 5, 4, 3, 2, 1] := by decide

example : removeElement [1, 2, 3, 4, 5, 4, 3, 2, 1] 2 false = [1, 3, 4, 5, 4, 3, 1] := by decide

example : removeElement [2, 2, 2, 2, 2] 2 true = [2, 2, 2, 2] := by decide

example : removeElement [2, 2, 2, 2, 2] 2 false = ([] : List Nat) := by decide

example : removeElement [2, 2, 2, 1, 2, 2, 3, 2] 2 true = [2, 2, 1, 2, 2, 3, 2] := by decide

example : removeElement [2, 2, 2, 1, 2, 2, 3, 2] 2 false = [1, 3] := by decide

example : removeElement ([1] : List Nat) 2 true = [1] := by decide

theorem length_sortedSubrange {α : Type} [LinearOrder α] (a : List α) (left right : Nat)
    (h2 : right < a.length) :
    (sortedSubrange a left right).length = right + 1 - left := by
  simp only [sortedSubrange, List.length_insertionSort, List.length_take, List.length_drop]
  omega

theorem sortRange_subrange_eq {α : Type} [LinearOrder α] (a : List α)
    (left right wl wr : Nat) (h1 : left ≤ right) (h2 : right < a.length) :
    ((sortRange a left right wl wr).drop left).take (right + 1 - left) =
      sortedSubrange a left right := by
  have hxlen : (a.take left).length = left := by
    simp only [List.length_take]
    omega
  have hslen : (sortedSubrange a left right).length = right + 1 - left :=
    length_sortedSubrange a left right h2
  rw [sortRange, List.append_assoc, List.drop_left' hxlen, List.take_append_eq_append_take,
    hslen]
  simp [hslen]

theorem sortRange_drop_left {α : Type} [LinearOrder α] (a : List α)
    (left right wl wr : Nat) (h1 : left ≤ right) (h2 : right < a.length) :
    (sortRange a left right wl wr).drop left =
      sortedSubrange a left right ++ a.drop (right + 1) := by
  have hxlen : (a.take left).length = left := by
    simp only [List.length_take]
    omega
  rw [sortRange, List.append_assoc, List.drop_left' hxlen]

/-- Claim C2: after `sortRange a cmp left right first (first + count - 1)` the
window `[first, first + count - 1]` of the array holds the corresponding slice
of the fully sorted subrange `[left, right]`, and the remaining elements of the
subrange are a permutation of the remaining elements of that sorted subrange. -/
theorem sortRange_window_spec {α : Type} [LinearOrder α] (a : List α)
    (left right first count : Nat)
    (h1 : left ≤ first) (hc : 1 ≤ count) (h3 : first + count - 1 ≤ right)
    (h4 : right < a.length) :
    (((sortRange a left right first (first + count - 1)).drop first).take count =
      ((sortedSubrange a left right).drop (first - left)).take count) ∧
    List.Perm
      ((((sortRange a left right first (first + count - 1)).drop left).take
          (right + 1 - left)).take (first - left) ++
        (((sortRange a left right first (first + count - 1)).drop left).take
          (right + 1 - left)).drop (first - left + count))
      ((sortedSubrange a left right).take (first - left) ++
        (sortedSubrange a left right).drop (first - left + count)) := by
  have h1r : left ≤ right := by omega
  have hslen : (sortedSubrange a left right).length = right + 1 - left :=
    length_sortedSubrange a left right h4
  constructor
  · have hdrop : (sortRange a left right first (first + count - 1)).drop first =
        (sortedSubrange a left right).drop (first - left) ++ a.drop (right + 1) := by
      have : (sortRange a left right first (first + count - 1)).drop first =
          ((sortRange a left right first (first + count - 1)).drop left).drop (first - left) := by
        rw [List.drop_drop]
        congr 1
        omega
      rw [this, sortRange_drop_left a left right _ _ h1r h4,
        List.drop_append_eq_append_drop, hslen]
      have : first - left - (right + 1 - left) = 0 := by omega
      rw [this]
      have : (a.drop (right + 1)).drop 0 = a.drop (right + 1) := by simp
      rw [this]
    rw [hdrop, List.take_append_eq_append_take]
    have hlen : ((sortedSubrange a left right).drop (first - left)).length =
        right + 1 - first := by
      simp only [List.length_drop, hslen]
      omega
    have : count - ((sortedSubrange a left right).drop (first - left)).length = 0 := by
      rw [hlen]
      omega
    rw [this]
    simp
  · rw [sortRange_subrange_eq a left right _ _ h1r h4]

theorem sortRange_window_spec_witness :
    ((((sortRange ([10, 44, 3, 6, 56, 66, 10, 55, 32, 56, 2, 5] : List Nat) 1 9 4 6).drop
        4).take 3 =
      ((sortedSubrange ([10, 44, 3, 6, 56, 66, 10, 55, 32, 56, 2, 5] : List Nat) 1 9).drop
        3).take 3) ∧
    List.Perm
      ((((sortRange ([10, 44, 3, 6, 56, 66, 10, 55, 32, 56, 2, 5] : List Nat) 1 9 4 6).drop
          1).take 9).take 3 ++
        (((sortRange ([10, 44, 3, 6, 56, 66, 10, 55, 32, 56, 2, 5] : List Nat) 1 9 4 6).drop
          1).take 9).drop 6)
      ((sortedSubrange ([10, 44, 3, 6, 56, 66, 10, 55, 32, 56, 2, 5] : List Nat) 1 9).take 3 ++
        (sortedSubrange ([10, 44, 3, 6, 56, 66, 10, 55, 32, 56, 2, 5] : List Nat) 1 9).drop
          6)) :=
  sortRange_window_spec [10, 44, 3, 6, 56, 66, 10, 55, 32, 56, 2, 5] 1 9 4 3
    (by decide) (by decide) (by decide) (by decide)

/-- Claim C6: `sortRange` leaves every element at an index outside the range
`[left, right]` unchanged. -/
theorem sortRange_outside_unchanged {α : Type} [LinearOrder α] (a : List α)
    (left right wl wr i : Nat) (h1 : left ≤ right) (h2 : right < a.length)
    (hi : i < left ∨ right < i) :
    (sortRange a left right wl wr)[i]? = a[i]? := by
  have hxlen : (a.take left).length = left := by
    simp only [List.length_take]
    omega
  have hslen : (sortedSubrange a left right).length = right + 1 - left :=
    length_sortedSubrange a left right h2
  cases hi with
  | inl hlt =>
    rw [sortRange, List.append_assoc, List.getElem?_append]
    rw [if_pos (by omega), List.getElem?_take, if_pos (by omega)]
  | inr hgt =>
    rw [sortRange, List.getElem?_append]
    have hlen2 : (a.take left ++ sortedSubrange a left right).length = right + 1 := by
      simp only [List.length_append, hxlen, hslen]
      omega
    rw [if_neg (by omega), List.getElem?_drop, hlen2]
    congr 1
    omega

theorem sortRange_outside_unchanged_witness :
    (sortRange ([6, 4, 2, 7, 10, 15, 1] : List Nat) 1 4 2 3)[5]? = some 15 ∧
    (sortRange ([6, 4, 2, 7, 10, 15, 1] : List Nat) 1 4 2 3)[0]? = some 6 :=
  ⟨(sortRange_outside_unchanged [6, 4, 2, 7, 10, 15, 1] 1 4 2 3 5
      (by decide) (by decide) (Or.inr (by decide))).trans (by decide),
   (sortRange_outside_unchanged [6, 4, 2, 7, 10, 15, 1] 1 4 2 3 0
      (by decide) (by decide) (Or.inl (by decide))).trans (by decide)⟩

example : sortRange ([6, 4, 2, 7, 10, 15, 1] : List Nat) 1 4 2 3 = [6, 2, 4, 7, 10, 15, 1] := by
  decide

example :
    sortRange ([10, 44, 3, 6, 56, 66, 10, 55, 32, 56, 2, 5] : List Nat) 0 11 0 11 =
      [2, 3, 5, 6, 10, 10, 32, 44, 55, 56, 56, 66] := by
  decide

end ArrayUtilities

namespace Initiators

open DevtoolsModel

/-- A node of the renderer entry tree; `parentEntry` models
`node.parent?.entry` flattened to the parent's entry, if any. -/
structure TraceNode where
  parentEntry : Option Nat
deriving DecidableEq

/-- The parts of `TraceEngine.Handlers.Types.TraceParseData` used by the
initiator-pair finder: the `Initiators.eventToInitiator` and
`Initiators.initiatorToEvents` maps, the set of synthetic trace entries, and
the `Renderer.entryToNode` map.  Trace events are natural-number identifiers
and the maps are association lists. -/
structure TraceParseData where
  eventToInitiator : List (Nat × Nat)
  initiatorToEvents : List (Nat × List Nat)
  syntheticEntries : List Nat
  entryToNode : List (Nat × TraceNode)
deriving DecidableEq

/-- Models `TraceEngine.Types.TraceEvents.isSyntheticTraceEntry`. -/
def isSyntheticTraceEntry (d : TraceParseData) (e : Nat) : Bool :=
  d.syntheticEntries.contains e

/-- A pair of an event and its initiator, as drawn on the flamechart. -/
structure InitiatorPair where
  event : Nat
  initiator : Nat
deriving DecidableEq

/-- The `while (currentEvent)` loop of `findEventInitiatorPairsPredecessors`,
made total by an explicit fuel argument: `none` means the fuel ran out before
the loop finished, `some pairs` is the loop's result.  Each constructor
follows one loop iteration of the source: push a pair and follow the
initiator; or, for a synthetic entry with a renderer node, climb to the
parent; otherwise stop. -/
def findEventInitiatorPairsPredecessors (d : TraceParseData) :
    Nat → Nat → Option (List InitiatorPair)
  | 0, _ => none
  | fuel + 1, currentEvent =>
    match lookup currentEvent d.eventToInitiator with
    | some currentInitiator =>
      (findEventInitiatorPairsPredecessors d fuel currentInitiator).map
        (fun ps => ⟨currentEvent, currentInitiator⟩ :: ps)
    | none =>
      if isSyntheticTraceEntry d currentEvent then
        match lookup currentEvent d.entryToNode with
        | some node =>
          match node.parentEntry with
          | some p => findEventInitiatorPairsPredecessors d fuel p
          | none => some []
        | none => some []
      else some []

/-- Models `findEventInitiatorPairsDirectSuccessors`. -/
def findEventInitiatorPairsDirectSuccessors (d : TraceParseData)
    (selectedEvent : Nat) : List InitiatorPair :=
  match lookup selectedEvent d.initiatorToEvents with
  | some events => events.map (fun e => ⟨e, selectedEvent⟩)
  | none => []

/-- Models `eventInitiatorPairsToDraw`: predecessors followed by direct
successors; `none` when the predecessor loop's fuel ran out. -/
def eventInitiatorPairsToDraw (d : TraceParseData) (fuel : Nat)
    (selectedEvent : Nat) : Option (List InitiatorPair) :=
  (findEventInitiatorPairsPredecessors d fuel selectedEvent).map
    (fun ps => ps ++ findEventInitiatorPairsDirectSuccessors d selectedEvent)

/-- One step of the backward walk: follow the initiator if there is one,
otherwise the parent pointer of a synthetic entry with a renderer node. -/
def walkStep (d : TraceParseData) (e : Nat) : Option Nat :=
  match lookup e d.eventToInitiator with
  | some i => some i
  | none =>
    if isSyntheticTraceEntry d e then
      match lookup e d.entryToNode with
      | some node => node.parentEntry
      | none => none
    else none

/-- The chain described by the spec: starting from the selected event,
repeatedly follow initiators and, for synthetic entries without an initiator,
parent pointers, collecting an event-initiator pair at each initiator step.
Written from the spec sentence for comparison with the source function. -/
def initiatorChainSpec (d : TraceParseData) : Nat → Nat → List InitiatorPair
  | 0, _ => []
  | fuel + 1, e =>
    match lookup e d.eventToInitiator with
    | some i => ⟨e, i⟩ :: initiatorChainSpec d fuel i
    | none =>
      match
        (if isSyntheticTraceEntry d e then
          (lookup e d.entryToNode).bind TraceNode.parentEntry
        else none) with
      | some p => initiatorChainSpec d fuel p
      | none => []

theorem findPredecessors_pairs_initiators (d : TraceParseData) :
    ∀ fuel sel ps, findEventInitiatorPairsPredecessors d fuel sel = some ps →
      (∀ p ∈ ps, lookup p.event d.eventToInitiator = some p.initiator) ∧
      ps = initiatorChainSpec d fuel sel := by
  intro fuel
  induction fuel with
  | zero => intro sel ps h; simp [findEventInitiatorPairsPredecessors] at h
  | succ fuel ih =>
    intro sel ps h
    cases hlook : lookup sel d.eventToInitiator with
    | some i =>
      simp only [findEventInitiatorPairsPredecessors, hlook] at h
      cases hrec : findEventInitiatorPairsPredecessors d fuel i with
      | none => simp [hrec] at h
      | some ps' =>
        rw [hrec] at h
        simp only [Option.map_some', Option.some.injEq] at h
        obtain ⟨hmem, hspec⟩ := ih i ps' hrec
        subst h
        constructor
        · intro p hp
          cases hp with
          | head => exact hlook
          | tail _ hp => exact hmem p hp
        · simp only [initiatorChainSpec, hlook, hspec]
    | none =>
      by_cases hsyn : isSyntheticTraceEntry d sel
      · cases hnode : lookup sel d.entryToNode with
        | some node =>
          cases hpar : node.parentEntry with
          | some p =>
            simp only [findEventInitiatorPairsPredecessors, hlook, if_pos hsyn, hnode,
              hpar] at h
            obtain ⟨hmem, hspec⟩ := ih p ps h
            refine ⟨hmem, ?_⟩
            simp only [initiatorChainSpec, hlook, if_pos hsyn, hnode, Option.some_bind, hpar]
            exact hspec
          | none =>
            simp only [findEventInitiatorPairsPredecessors, hlook, if_pos hsyn, hnode, hpar,
              Option.some.injEq] at h
            subst h
            refine ⟨?_, ?_⟩
            · intro p hp; cases hp
            · simp [initiatorChainSpec, hlook, if_pos hsyn, hnode, hpar]
        | none =>
          simp only [findEventInitiatorPairsPredecessors, hlook, if_pos hsyn, hnode,
            Option.some.injEq] at h
          subst h
          refine ⟨?_, ?_⟩
          · intro p hp; cases hp
          · simp [initiatorChainSpec, hlook, if_pos hsyn, hnode]
      · simp only [findEventInitiatorPairsPredecessors, hlook, if_neg hsyn,
          Option.some.injEq] at h
        subst h
        refine ⟨?_, ?_⟩
        · intro p hp; cases hp
        · simp [initiatorChainSpec, hlook, if_neg hsyn]

/-- Claim C1: whenever the predecessor loop finishes (with enough fuel),
`eventInitiatorPairsToDraw` returns the backward initiator chain followed by
the direct successors: the chain pairs each carry their event's initiator and
are exactly the chain obtained by repeatedly following initiators (and, for
synthetic entries without an initiator, parent pointers) from the selected
event, and the successor pairs each carry the selected event as initiator and
an event of `initiatorToEvents(selectedEvent)`, appearing after the chain. -/
theorem eventInitiatorPairsToDraw_spec (d : TraceParseData) (fuel sel : Nat)
    (ps : List InitiatorPair)
    (h : findEventInitiatorPairsPredecessors d fuel sel = some ps) :
    eventInitiatorPairsToDraw d fuel sel =
      some (ps ++ findEventInitiatorPairsDirectSuccessors d sel) ∧
    (∀ p ∈ ps, lookup p.event d.eventToInitiator = some p.initiator) ∧
    ps = initiatorChainSpec d fuel sel ∧
    (∀ p ∈ findEventInitiatorPairsDirectSuccessors d sel,
      p.initiator = sel ∧
      ∃ evs, lookup sel d.initiatorToEvents = some evs ∧ p.event ∈ evs) := by
  obtain ⟨hmem, hspec⟩ := findPredecessors_pairs_initiators d fuel sel ps h
  refine ⟨by simp [eventInitiatorPairsToDraw, h], hmem, hspec, ?_⟩
  intro p hp
  rw [findEventInitiatorPairsDirectSuccessors] at hp
  cases hlook : lookup sel d.initiatorToEvents with
  | some evs =>
    rw [hlook] at hp
    obtain ⟨e, he, heq⟩ := List.mem_map.mp hp
    subst heq
    exact ⟨rfl, evs, rfl, he⟩
  | none => rw [hlook] at hp; cases hp

theorem eventInitiatorPairsToDraw_spec_witness :
    eventInitiatorPairsToDraw ⟨[(5, 4), (4, 3)], [(5, [7, 8])], [], []⟩ 3 5 =
      some ([⟨5, 4⟩, ⟨4, 3⟩] ++
        findEventInitiatorPairsDirectSuccessors ⟨[(5, 4), (4, 3)], [(5, [7, 8])], [], []⟩ 5) ∧
    (∀ p ∈ ([⟨5, 4⟩, ⟨4, 3⟩] : List InitiatorPair),
      lookup p.event (TraceParseData.eventToInitiator ⟨[(5, 4), (4, 3)], [(5, [7, 8])], [], []⟩) =
        some p.initiator) ∧
    ([⟨5, 4⟩, ⟨4, 3⟩] : List InitiatorPair) =
      initiatorChainSpec ⟨[(5, 4), (4, 3)], [(5, [7, 8])], [], []⟩ 3 5 ∧
    (∀ p ∈ findEventInitiatorPairsDirectSuccessors ⟨[(5, 4), (4, 3)], [(5, [7, 8])], [], []⟩ 5,
      p.initiator = 5 ∧
      ∃ evs,
        lookup 5 (TraceParseData.initiatorToEvents ⟨[(5, 4), (4, 3)], [(5, [7, 8])], [], []⟩) =
          some evs ∧ p.event ∈ evs) :=
  eventInitiatorPairsToDraw_spec ⟨[(5, 4), (4, 3)], [(5, [7, 8])], [], []⟩ 3 5
    [⟨5, 4⟩, ⟨4, 3⟩] (by decide)

/-- Iterated backward walk: `walkN d n e` is the event reached after `n` loop
iterations from `e`, or `none` if the walk stops before that. -/
def walkN (d : TraceParseData) : Nat → Nat → Option Nat
  | 0, e => some e
  | n + 1, e => (walkStep d e).bind (walkN d n)

/-- Every event the walk can step to: an initiator stored in
`eventToInitiator` or a parent entry stored in `entryToNode`. -/
def walkTargets (d : TraceParseData) : List Nat :=
  d.eventToInitiator.map Prod.snd ++
    d.entryToNode.filterMap (fun p => p.2.parentEntry)

/-- The walk starting at `sel` can reach `e`. -/
def WalkReaches (d : TraceParseData) (sel e : Nat) : Prop :=
  ∃ n, walkN d n sel = some e

/-- The combined initiator-or-parent relation is acyclic below `sel`: no event
reachable from `sel` returns to itself in a positive number of steps. -/
def WalkAcyclic (d : TraceParseData) (sel : Nat) : Prop :=
  ∀ e k, WalkReaches d sel e → 0 < k → walkN d k e ≠ some e

theorem walkN_add (d : TraceParseData) :
    ∀ m n e, walkN d (m + n) e = (walkN d m e).bind (walkN d n) := by
  intro m
  induction m with
  | zero => intro n e; simp [walkN]
  | succ m ih =>
    intro n e
    have hmn : m + 1 + n = (m + n) + 1 := by omega
    rw [hmn, walkN, walkN]
    cases walkStep d e with
    | none => simp
    | some e' => simp [ih n e']

theorem walkStep_mem_targets (d : TraceParseData) (e e' : Nat)
    (h : walkStep d e = some e') : e' ∈ walkTargets d := by
  cases hlook : lookup e d.eventToInitiator with
  | some i =>
    simp only [walkStep, hlook, Option.some.injEq] at h
    have hlook' : lookup e d.eventToInitiator = some e' := by rw [hlook, h]
    exact List.mem_append_left _
      (List.mem_map.mpr ⟨(e, e'), DevtoolsModel.lookup_mem e e' _ hlook', rfl⟩)
  | none =>
    by_cases hsyn : isSyntheticTraceEntry d e
    · cases hnode : lookup e d.entryToNode with
      | some node =>
        simp only [walkStep, hlook, if_pos hsyn, hnode] at h
        exact List.mem_append_right _
          (List.mem_filterMap.mpr ⟨(e, node), DevtoolsModel.lookup_mem e node _ hnode, h⟩)
      | none => simp [walkStep, hlook, if_pos hsyn, hnode] at h
    · simp [walkStep, hlook, if_neg hsyn] at h

theorem walkN_succ_mem_targets (d : TraceParseData) (n sel e' : Nat)
    (h : walkN d (n + 1) sel = some e') : e' ∈ walkTargets d := by
  rw [walkN_add d n 1 sel] at h
  obtain ⟨mid, _, hmid⟩ := Option.bind_eq_some.mp h
  cases hstep : walkStep d mid with
  | none => simp [walkN, hstep] at hmid
  | some x =>
    simp only [walkN, hstep, Option.some_bind, Option.some.injEq] at hmid
    have hstep' : walkStep d mid = some e' := by rw [hstep, hmid]
    exact walkStep_mem_targets d mid e' hstep'

theorem walk_dies (d : TraceParseData) (sel : Nat) (hacyc : WalkAcyclic d sel) :
    ∃ n, walkN d n sel = none := by
  by_contra hno
  push_neg at hno
  have hsome : ∀ n, ∃ e, walkN d n sel = some e := by
    intro n
    cases hn : walkN d n sel with
    | none => exact absurd hn (hno n)
    | some e => exact ⟨e, rfl⟩
  set B := (walkTargets d).length with hB
  set t : Finset Nat := insert sel (walkTargets d).toFinset with ht
  have hmaps : ∀ i : Fin (B + 2), (walkN d i sel).getD 0 ∈ t := by
    intro i
    cases hi : (i : Nat) with
    | zero =>
      simp [walkN, ht]
    | succ j =>
      obtain ⟨e, he⟩ := hsome (j + 1)
      rw [he]
      simp only [Option.getD_some, ht]
      exact Finset.mem_insert_of_mem
        (List.mem_toFinset.mpr (walkN_succ_mem_targets d j sel e he))
  have hcard : t.card < (Finset.univ : Finset (Fin (B + 2))).card := by
    have h1 : t.card ≤ (walkTargets d).toFinset.card + 1 := Finset.card_insert_le _ _
    have h2 : (walkTargets d).toFinset.card ≤ B := List.toFinset_card_le _
    simp only [Finset.card_univ, Fintype.card_fin]
    omega
  obtain ⟨i, _, j, _, hij, hfij⟩ :=
    Finset.exists_ne_map_eq_of_card_lt_of_maps_to hcard (fun i _ => hmaps i)
  rcases Nat.lt_or_ge (i : Nat) (j : Nat) with hlt | hge
  · obtain ⟨ei, hei⟩ := hsome i
    obtain ⟨ej, hej⟩ := hsome j
    have heq : ei = ej := by
      rw [hei, hej] at hfij
      simpa using hfij
    subst heq
    have hsplit : walkN d ((i : Nat) + ((j : Nat) - (i : Nat))) sel =
        (walkN d i sel).bind (walkN d ((j : Nat) - (i : Nat))) := walkN_add d _ _ _
    rw [show (i : Nat) + ((j : Nat) - (i : Nat)) = (j : Nat) by omega, hej, hei] at hsplit
    simp only [Option.some_bind] at hsplit
    exact hacyc ei ((j : Nat) - (i : Nat)) ⟨i, hei⟩ (by omega) hsplit.symm
  · have hlt' : (j : Nat) < (i : Nat) := by
      rcases Nat.lt_or_ge (j : Nat) (i : Nat) with h | h
      · exact h
      · exact absurd (Fin.ext (by omega)) hij
    obtain ⟨ei, hei⟩ := hsome i
    obtain ⟨ej, hej⟩ := hsome j
    have heq : ej = ei := by
      rw [hei, hej] at hfij
      simpa using hfij.symm
    subst heq
    have hsplit : walkN d ((j : Nat) + ((i : Nat) - (j : Nat))) sel =
        (walkN d j sel).bind (walkN d ((i : Nat) - (j : Nat))) := walkN_add d _ _ _
    rw [show (j : Nat) + ((i : Nat) - (j : Nat)) = (i : Nat) by omega, hej, hei] at hsplit
    simp only [Option.some_bind] at hsplit
    exact hacyc ej ((i : Nat) - (j : Nat)) ⟨j, hej⟩ (by omega) hsplit.symm

theorem findPredecessors_some_of_walkN_none (d : TraceParseData) :
    ∀ n e, walkN d n e = none →
      ∃ ps, findEventInitiatorPairsPredecessors d n e = some ps ∧ ps.length ≤ n := by
  intro n
  induction n with
  | zero => intro e h; simp [walkN] at h
  | succ n ih =>
    intro e h
    rw [walkN] at h
    cases hstep : walkStep d e with
    | none =>
      cases hlook : lookup e d.eventToInitiator with
      | some i => simp [walkStep, hlook] at hstep
      | none =>
        by_cases hsyn : isSyntheticTraceEntry d e
        · cases hnode : lookup e d.entryToNode with
          | some node =>
            simp only [walkStep, hlook, if_pos hsyn, hnode] at hstep
            refine ⟨[], ?_, by simp⟩
            simp [findEventInitiatorPairsPredecessors, hlook, if_pos hsyn, hnode, hstep]
          | none =>
            refine ⟨[], ?_, by simp⟩
            simp [findEventInitiatorPairsPredecessors, hlook, if_pos hsyn, hnode]
        · refine ⟨[], ?_, by simp⟩
          simp [findEventInitiatorPairsPredecessors, hlook, if_neg hsyn]
    | some e' =>
      rw [hstep, Option.some_bind] at h
      obtain ⟨ps, hps, hlen⟩ := ih e' h
      cases hlook : lookup e d.eventToInitiator with
      | some i =>
        simp only [walkStep, hlook, Option.some.injEq] at hstep
        have hlook' : lookup e d.eventToInitiator = some e' := by rw [hlook, hstep]
        refine ⟨⟨e, e'⟩ :: ps, ?_, by simp only [List.length_cons]; omega⟩
        simp [findEventInitiatorPairsPredecessors, hlook', hps]
      | none =>
        by_cases hsyn : isSyntheticTraceEntry d e
        · cases hnode : lookup e d.entryToNode with
          | some node =>
            simp only [walkStep, hlook, if_pos hsyn, hnode] at hstep
            refine ⟨ps, ?_, by omega⟩
            simp [findEventInitiatorPairsPredecessors, hlook, if_pos hsyn, hnode, hstep, hps]
          | none => simp [walkStep, hlook, if_pos hsyn, hnode] at hstep
        · simp [walkStep, hlook, if_neg hsyn] at hstep

/-- Claim C4: when the combined initiator-or-parent relation is acyclic below
the selected event, the `while` loop of `findEventInitiatorPairsPredecessors`
terminates, and the number of iterations (the fuel consumed, which also bounds
the number of pairs produced) is the depth of the selected event under that
relation: the least `n` at which the backward walk stops. -/
theorem findPredecessors_terminates (d : TraceParseData) (sel : Nat)
    (hacyc : WalkAcyclic d sel) :
    ∃ n, (∀ m, m < n → walkN d m sel ≠ none) ∧ walkN d n sel = none ∧
      ∃ ps, findEventInitiatorPairsPredecessors d n sel = some ps ∧ ps.length ≤ n := by
  have hex := walk_dies d sel hacyc
  refine ⟨Nat.find hex, ?_, Nat.find_spec hex, ?_⟩
  · intro m hm
    exact Nat.find_min hex hm
  · exact findPredecessors_some_of_walkN_none d (Nat.find hex) sel (Nat.find_spec hex)

theorem findPredecessors_terminates_witness :
    ∃ n, (∀ m, m < n → walkN ⟨[(5, 4), (4, 3)], [], [], []⟩ m 5 ≠ none) ∧
      walkN ⟨[(5, 4), (4, 3)], [], [], []⟩ n 5 = none ∧
      ∃ ps, findEventInitiatorPairsPredecessors ⟨[(5, 4), (4, 3)], [], [], []⟩ n 5 = some ps ∧
        ps.length ≤ n :=
  findPredecessors_terminates ⟨[(5, 4), (4, 3)], [], [], []⟩ 5 (by
    intro e k hreach hk hcyc
    obtain ⟨n, hn⟩ := hreach
    have hall : ∀ m x, walkN ⟨[(5, 4), (4, 3)], [], [], []⟩ m 5 = some x →
        x = 5 ∨ x = 4 ∨ x = 3 := by
      intro m
      induction m with
      | zero => intro x hx; simp [walkN] at hx; omega
      | succ m ihm =>
        intro x hx
        rw [walkN_add _ m 1 5] at hx
        obtain ⟨mid, hmid, hx1⟩ := Option.bind_eq_some.mp hx
        have := ihm mid hmid
        rcases this with h5 | h4 | h3 <;> subst_vars <;>
          simp [walkN, walkStep, lookup, isSyntheticTraceEntry] at hx1 <;> omega
    have he : e = 5 ∨ e = 4 ∨ e = 3 := hall n e hn
    have hstep3 : ∀ k x, 0 < k → walkN ⟨[(5, 4), (4, 3)], [], [], []⟩ k 3 ≠ some x := by
      intro k x hk0
      cases k with
      | zero => omega
      | succ k => simp [walkN, walkStep, lookup, isSyntheticTraceEntry]
    rcases he with h | h | h <;> subst h
    · cases k with
      | zero => omega
      | succ k =>
        cases k with
        | zero => simp [walkN, walkStep, lookup, isSyntheticTraceEntry] at hcyc
        | succ k =>
          cases k with
          | zero => simp [walkN, walkStep, lookup, isSyntheticTraceEntry] at hcyc
          | succ k =>
            rw [show k + 1 + 1 + 1 = 3 + k by omega, walkN_add] at hcyc
            simp only [show walkN ⟨[(5, 4), (4, 3)], [], [], []⟩ 3 5 = none by
              simp [walkN, walkStep, lookup, isSyntheticTraceEntry],
              Option.none_bind] at hcyc
            cases hcyc
    · cases k with
      | zero => omega
      | succ k =>
        cases k with
        | zero => simp [walkN, walkStep, lookup, isSyntheticTraceEntry] at hcyc
        | succ k =>
          rw [show k + 1 + 1 = 2 + k by omega, walkN_add] at hcyc
          simp only [show walkN ⟨[(5, 4), (4, 3)], [], [], []⟩ 2 4 = none by
            simp [walkN, walkStep, lookup, isSyntheticTraceEntry],
            Option.none_bind] at hcyc
          cases hcyc
    · exact hstep3 k 3 hk hcyc)

end Initiators

namespace BidiFrame

open DevtoolsModel

/-- Modelled from the spec: puppeteer's `Deferred` (from util/Deferred.js, not
in the excerpt) settles at most once; rejecting a pending deferred records the
error and rejecting a settled one is a no-op. -/
inductive DeferredState
  | pending
  | rejected (msg : String)
deriving DecidableEq

def DeferredState.reject (d : DeferredState) (msg : String) : DeferredState :=
  match d with
  | .pending => .rejected msg
  | s => s

/-- The state of a `BidiFrame` relevant to its lifecycle: the `#disposed`
flag, the `#abortDeferred`, the `#exposedFunctions` map (function bodies are
numeric handles), and counters recording how many times the abort deferred
was rejected, the browsing context was disposed, and each sandbox was
disposed. -/
structure Frame where
  disposed : Bool
  abortDeferred : DeferredState
  abortRejectCalls : Nat
  contextDisposals : Nat
  mainSandboxDisposals : Nat
  puppeteerSandboxDisposals : Nat
  exposedFunctions : List (String × Nat)
deriving DecidableEq

/-- A frame as constructed: not disposed, pending abort deferred, no
disposals performed, no exposed functions. -/
def initialFrame : Frame :=
  ⟨false, .pending, 0, 0, 0, 0, []⟩

/-- Models `BidiFrame[disposeSymbol]`: return immediately when already
disposed, otherwise set the flag, reject the abort deferred with the error
message `Frame detached`, and dispose the context and both sandboxes. -/
def dispose (f : Frame) : Frame :=
  if f.disposed then f
  else
    { f with
      disposed := true
      abortDeferred := f.abortDeferred.reject "Frame detached"
      abortRejectCalls := f.abortRejectCalls + 1
      contextDisposals := f.contextDisposals + 1
      mainSandboxDisposals := f.mainSandboxDisposals + 1
      puppeteerSandboxDisposals := f.puppeteerSandboxDisposals + 1 }

/-- Models the `detached` getter. -/
def detached (f : Frame) : Bool :=
  f.disposed

/-- What a navigation promise already racing on `abortDeferred.valueOrThrow()`
observes in the given frame state: the rejection message once the deferred is
rejected, nothing while it is pending. -/
def pendingNavigationObserves (f : Frame) : Option String :=
  match f.abortDeferred with
  | .rejected msg => some msg
  | .pending => none

/-- Modelled from the spec: the `throwIfDetached` decorator (from api/Frame.js,
not in the excerpt) makes a decorated method throw when the frame is detached
before running its body. -/
def throwIfDetachedGuard (f : Frame) : Except String Unit :=
  if detached f then Except.error "Attempted to use detached Frame" else Except.ok ()

/-- The `throwIfDetached` guard of `goto`; the navigation body itself is
host-runtime work outside the model. -/
def goto (f : Frame) : Except String Unit :=
  throwIfDetachedGuard f

/-- The `throwIfDetached` guard of `setContent`. -/
def setContent (f : Frame) : Except String Unit :=
  throwIfDetachedGuard f

/-- The `throwIfDetached` guard of `waitForNavigation`. -/
def waitForNavigation (f : Frame) : Except String Unit :=
  throwIfDetachedGuard f

/-- Models `BidiFrame.exposeFunction`: throw when the name is already bound,
otherwise add the function to the map, run the underlying `expose()` call
(whose success is the boolean `exposeSucceeds`), and on failure remove the
just-added entry before rethrowing. -/
def exposeFunction (f : Frame) (name : String) (fnId : Nat) (exposeSucceeds : Bool) :
    Except String Unit × Frame :=
  if (lookup name f.exposedFunctions).isSome then
    (Except.error ("Failed to add page binding with name " ++ name), f)
  else
    let f1 := { f with exposedFunctions := mapSet name fnId f.exposedFunctions }
    if exposeSucceeds then (Except.ok (), f1)
    else
      (Except.error "expose failed",
        { f1 with exposedFunctions := mapDelete name f1.exposedFunctions })

/-- Claim C5: disposing a not-yet-disposed frame rejects the in-flight abort
deferred with the error `Frame detached` (so a pending `goto`, `setContent`
or `waitForNavigation` promise racing on it observes that rejection);
afterwards the `detached` getter returns `true` and new `goto`, `setContent`
and `waitForNavigation` calls fail through the `throwIfDetached` guard. -/
theorem dispose_rejects_inflight (f : Frame) (hnot : f.disposed = false)
    (habort : f.abortDeferred = DeferredState.pending) :
    (dispose f).abortDeferred = DeferredState.rejected "Frame detached" ∧
    pendingNavigationObserves (dispose f) = some "Frame detached" ∧
    detached (dispose f) = true ∧
    goto (dispose f) = Except.error "Attempted to use detached Frame" ∧
    setContent (dispose f) = Except.error "Attempted to use detached Frame" ∧
    waitForNavigation (dispose f) = Except.error "Attempted to use detached Frame" := by
  have hd : dispose f =
      { f with
        disposed := true
        abortDeferred := f.abortDeferred.reject "Frame detached"
        abortRejectCalls := f.abortRejectCalls + 1
        contextDisposals := f.contextDisposals + 1
        mainSandboxDisposals := f.mainSandboxDisposals + 1
        puppeteerSandboxDisposals := f.puppeteerSandboxDisposals + 1 } := by
    rw [dispose, if_neg (by simp [hnot])]
  refine ⟨?_, ?_, ?_, ?_, ?_, ?_⟩ <;>
    simp [hd, habort, DeferredState.reject, pendingNavigationObserves, detached, goto,
      setContent, waitForNavigation, throwIfDetachedGuard]

theorem dispose_rejects_inflight_witness :
    (dispose initialFrame).abortDeferred = DeferredState.rejected "Frame detached" ∧
    pendingNavigationObserves (dispose initialFrame) = some "Frame detached" ∧
    detached (dispose initialFrame) = true ∧
    goto (dispose initialFrame) = Except.error "Attempted to use detached Frame" ∧
    setContent (dispose initialFrame) = Except.error "Attempted to use detached Frame" ∧
    waitForNavigation (dispose initialFrame) =
      Except.error "Attempted to use detached Frame" :=
  dispose_rejects_inflight initialFrame rfl rfl

/-- Claim C8: disposing is idempotent.  A second dispose call returns
immediately because `#disposed` is already set, so the frame state after two
calls equals the state after one, and starting from a not-yet-disposed frame
the abort rejection, the context disposal and both sandbox disposals each
happen exactly once across any number of dispose calls. -/
theorem dispose_idempotent (f : Frame) :
    dispose (dispose f) = dispose f ∧
    (f.disposed = false →
      (dispose (dispose f)).abortRejectCalls = f.abortRejectCalls + 1 ∧
      (dispose (dispose f)).contextDisposals = f.contextDisposals + 1 ∧
      (dispose (dispose f)).mainSandboxDisposals = f.mainSandboxDisposals + 1 ∧
      (dispose (dispose f)).puppeteerSandboxDisposals = f.puppeteerSandboxDisposals + 1) := by
  have hdisposed : ∀ g : Frame, g.disposed = true → dispose g = g := by
    intro g hg
    rw [dispose, if_pos hg]
  have hidem : dispose (dispose f) = dispose f := by
    by_cases h : f.disposed
    · simp [hdisposed f h]
    · have h1 : (dispose f).disposed = true := by rw [dispose, if_neg h]
      exact hdisposed _ h1
  refine ⟨hidem, ?_⟩
  intro hnot
  rw [hidem, dispose, if_neg (by simp [hnot])]
  exact ⟨rfl, rfl, rfl, rfl⟩

theorem dispose_idempotent_witness :
    (dispose (dispose initialFrame)).abortRejectCalls = initialFrame.abortRejectCalls + 1 ∧
    (dispose (dispose initialFrame)).contextDisposals = initialFrame.contextDisposals + 1 ∧
    (dispose (dispose initialFrame)).mainSandboxDisposals =
      initialFrame.mainSandboxDisposals + 1 ∧
    (dispose (dispose initialFrame)).puppeteerSandboxDisposals =
      initialFrame.puppeteerSandboxDisposals + 1 :=
  (dispose_idempotent initialFrame).2 rfl

/-- Claim C9: `exposeFunction` is atomic on error.  When the name is already
bound it throws and the frame (in particular the exposed-functions map) is
unchanged; when the underlying `expose()` call fails, the just-added entry is
deleted before the error propagates, so on any error the map equals its value
before the call. -/
theorem exposeFunction_atomic (f : Frame) (name : String) (fnId : Nat)
    (exposeSucceeds : Bool) :
    ((lookup name f.exposedFunctions).isSome →
      exposeFunction f name fnId exposeSucceeds =
        (Except.error ("Failed to add page binding with name " ++ name), f)) ∧
    (∀ msg, (exposeFunction f name fnId exposeSucceeds).1 = Except.error msg →
      (exposeFunction f name fnId exposeSucceeds).2.exposedFunctions =
        f.exposedFunctions) := by
  constructor
  · intro hhas
    rw [exposeFunction, if_pos hhas]
  · intro msg herr
    by_cases hhas : (lookup name f.exposedFunctions).isSome
    · rw [exposeFunction, if_pos hhas]
    · cases hs : exposeSucceeds with
      | true =>
        rw [exposeFunction, if_neg hhas] at herr
        simp [hs] at herr
      | false =>
        rw [exposeFunction, if_neg hhas]
        simp only [hs, if_neg (Bool.false_ne_true)]
        have hnone : lookup name f.exposedFunctions = none :=
          Option.not_isSome_iff_eq_none.mp hhas
        exact DevtoolsModel.mapDelete_mapSet_of_lookup_none name fnId _ hnone

theorem exposeFunction_atomic_witness :
    (exposeFunction
        { initialFrame with exposedFunctions := [("hook", 7)] } "hook" 9 true).2.exposedFunctions
        = [("hook", 7)] ∧
    (exposeFunction initialFrame "hook" 9 false).2.exposedFunctions = [] :=
  ⟨(exposeFunction_atomic { initialFrame with exposedFunctions := [("hook", 7)] }
      "hook" 9 true).2 ("Failed to add page binding with name " ++ "hook") (by rfl),
   (exposeFunction_atomic initialFrame "hook" 9 false).2 "expose failed" (by rfl)⟩

example :
    (exposeFunction initialFrame "cb" 3 true).2.exposedFunctions = [("cb", 3)] := by rfl

example : (exposeFunction initialFrame "cb" 3 true).1 = Except.ok () := by rfl

end BidiFrame

namespace LoggingDriver

open DevtoolsModel

/-- The cached per-loggable flags of `LoggingState` used by `process`. -/
structure LoggingState where
  impressionLogged : Bool
  processed : Bool
deriving DecidableEq

/-- Models `getOrCreateLoggingState`: the cached state of a loggable, fresh
flags when nothing is cached yet. -/
def getOrCreateLoggingState (states : List (Nat × LoggingState)) (id : Nat) :
    LoggingState :=
  (lookup id states).getD ⟨false, false⟩

/-- A DOM loggable as seen by one `process` run: its identity and whether the
`visibleOverlap`/open-select-option check makes it visible. -/
structure DomLoggable where
  id : Nat
  visible : Bool
deriving DecidableEq

/-- A non-DOM loggable registered in `NonDomState`: its identity and its
optional parent loggable. -/
structure NonDomEntry where
  id : Nat
  parent : Option Nat
deriving DecidableEq

/-- The module-level mutable state of `LoggingDriver.ts`: the `logging` flag,
the processing throttler (`none` models `null`; `some n` a live throttler
with `n` scheduled jobs), the registered documents, the roots with connected
mutation observers, the `NonDomState` registry, and the cached per-loggable
`LoggingState`s. -/
structure DriverState where
  logging : Bool
  processingThrottler : Option Nat
  documents : List Nat
  mutationObserverRoots : List Nat
  nonDomRegistered : List NonDomEntry
  states : List (Nat × LoggingState)
deriving DecidableEq

/-- The module state before any `startLogging` call. -/
def initialDriverState : DriverState :=
  ⟨false, none, [], [], [], []⟩

/-- Models `scheduleProcessing`: return without scheduling when
`processingThrottler` is null, otherwise schedule the processing job. -/
def scheduleProcessing (s : DriverState) : DriverState :=
  match s.processingThrottler with
  | none => s
  | some n => { s with processingThrottler := some (n + 1) }

/-- Models `stopLogging`: clear the `logging` flag, unregister all non-DOM
loggables, disconnect the mutation observers, empty the documents list and
null out the processing throttler. -/
def stopLogging (s : DriverState) : DriverState :=
  { s with
    logging := false
    nonDomRegistered := []
    mutationObserverRoots := []
    documents := []
    processingThrottler := none }

/-- Claim C10: `stopLogging` nulls the processing throttler, empties the
documents list and disconnects the mutation observers, and
`scheduleProcessing` is a no-op whenever the throttler is null, in particular
after `stopLogging` and before any `startLogging`. -/
theorem stopLogging_disables_scheduling (s : DriverState) :
    (stopLogging s).processingThrottler = none ∧
    (stopLogging s).documents = [] ∧
    (stopLogging s).mutationObserverRoots = [] ∧
    scheduleProcessing (stopLogging s) = stopLogging s ∧
    scheduleProcessing initialDriverState = initialDriverState ∧
    (∀ t : DriverState, t.processingThrottler = none → scheduleProcessing t = t) := by
  refine ⟨rfl, rfl, rfl, rfl, rfl, ?_⟩
  intro t ht
  simp only [scheduleProcessing, ht]

theorem stopLogging_disables_scheduling_witness :
    scheduleProcessing initialDriverState = initialDriverState :=
  (stopLogging_disables_scheduling initialDriverState).2.2.2.2.2 initialDriverState rfl

end LoggingDriver

namespace LoggingDriver

open DevtoolsModel

/-- Number of set flags in a boolean: 1 for `true`, 0 for `false`. -/
def flagN (b : Bool) : Nat :=
  if b then 1 else 0

/-- One `process` iteration on a single DOM loggable state: log an impression
when the flag is clear and the element is visible, install the interaction
listeners when the `processed` flag is clear.  Returns the new state, whether
the loggable was added to the impressions batch, and whether its listeners
were installed now. -/
def processDomOne (st : LoggingState) (visible : Bool) : LoggingState × Bool × Bool :=
  let imp := !st.impressionLogged && visible
  let st1 := if imp then { st with impressionLogged := true } else st
  let inst := !st1.processed
  let st2 := if inst then { st1 with processed := true } else st1
  (st2, imp, inst)

/-- The DOM part of `process`: iterate over the loggables from `getDomState`
in order, threading the cached logging states.  Returns the updated cache,
the loggables pushed to `visibleLoggables`, and the loggables whose
interaction listeners were installed. -/
def processDomLoggables : List DomLoggable → List (Nat × LoggingState) →
    List (Nat × LoggingState) × List Nat × List Nat
  | [], states => (states, [], [])
  | d :: rest, states =>
    let r0 := processDomOne (getOrCreateLoggingState states d.id) d.visible
    let res := processDomLoggables rest (mapSet d.id r0.1 states)
    (res.1, (if r0.2.1 then [d.id] else []) ++ res.2.1,
      (if r0.2.2 then [d.id] else []) ++ res.2.2)

/-- Visibility of a registered non-DOM loggable: no parent, or a parent whose
impression has been logged. -/
def nonDomVisible (states : List (Nat × LoggingState)) (e : NonDomEntry) : Bool :=
  match e.parent with
  | none => true
  | some p => (getOrCreateLoggingState states p).impressionLogged

/-- The non-DOM part of `process`: a visible loggable is pushed to the batch,
gets `impressionLogged` set and is unregistered; an invisible one only has
its state cached and stays registered.  Returns the updated cache, the batch
and the remaining registry. -/
def processNonDomLoggables : List NonDomEntry → List (Nat × LoggingState) →
    List (Nat × LoggingState) × List Nat × List NonDomEntry
  | [], states => (states, [], [])
  | e :: rest, states =>
    if nonDomVisible states e then
      let res := processNonDomLoggables rest
        (mapSet e.id (⟨true, (getOrCreateLoggingState states e.id).processed⟩ : LoggingState)
          states)
      (res.1, e.id :: res.2.1, res.2.2)
    else
      let res := processNonDomLoggables rest
        (mapSet e.id (getOrCreateLoggingState states e.id) states)
      (res.1, res.2.1, e :: res.2.2)

/-- The outcome of one or more `process` runs: the driver state, the
loggables passed to `logImpressions`, and the loggables whose interaction
listeners were installed. -/
structure ProcessResult where
  state : DriverState
  impressions : List Nat
  installs : List Nat
deriving DecidableEq

/-- Models one `process` run: return immediately when the document is hidden,
otherwise process the DOM loggables, then the registered non-DOM loggables,
and log the impressions (DOM first, then non-DOM). -/
def process (docHidden : Bool) (doms : List DomLoggable) (s : DriverState) :
    ProcessResult :=
  if docHidden then ⟨s, [], []⟩
  else
    ⟨{ s with
        states := (processNonDomLoggables s.nonDomRegistered
          (processDomLoggables doms s.states).1).1,
        nonDomRegistered := (processNonDomLoggables s.nonDomRegistered
          (processDomLoggables doms s.states).1).2.2 },
      (processDomLoggables doms s.states).2.1 ++
        (processNonDomLoggables s.nonDomRegistered
          (processDomLoggables doms s.states).1).2.1,
      (processDomLoggables doms s.states).2.2⟩

/-- A sequence of `process` runs, concatenating the impression batches and
the listener installations. -/
def runProcesses : List (Bool × List DomLoggable) → DriverState → ProcessResult
  | [], s => ⟨s, [], []⟩
  | r :: rest, s =>
    let r1 := process r.1 r.2 s
    let r2 := runProcesses rest r1.state
    ⟨r2.state, r1.impressions ++ r2.impressions, r1.installs ++ r2.installs⟩

theorem flagN_le_one (b : Bool) : flagN b ≤ 1 := by
  cases b <;> simp [flagN]

theorem flagN_eq_one_iff (b : Bool) : flagN b = 1 ↔ b = true := by
  cases b <;> simp [flagN]

theorem getOrCreate_mapSet_self (states : List (Nat × LoggingState)) (k : Nat)
    (v : LoggingState) : getOrCreateLoggingState (mapSet k v states) k = v := by
  simp [getOrCreateLoggingState, DevtoolsModel.lookup_mapSet_self]

theorem getOrCreate_mapSet_ne (states : List (Nat × LoggingState)) (k j : Nat)
    (v : LoggingState) (h : k ≠ j) :
    getOrCreateLoggingState (mapSet k v states) j = getOrCreateLoggingState states j := by
  simp [getOrCreateLoggingState, DevtoolsModel.lookup_mapSet_ne k j v h]

theorem count_single (k j : Nat) : List.count j [k] = if k = j then 1 else 0 := by
  by_cases h : k = j <;> simp [h, List.count_cons]

theorem processDomOne_impression (st : LoggingState) (visible : Bool) :
    flagN (processDomOne st visible).1.impressionLogged =
      flagN st.impressionLogged + (if (processDomOne st visible).2.1 then 1 else 0) := by
  cases st with
  | mk imp proc => cases imp <;> cases proc <;> cases visible <;> simp [processDomOne, flagN]

theorem processDomOne_processed (st : LoggingState) (visible : Bool) :
    flagN (processDomOne st visible).1.processed =
      flagN st.processed + (if (processDomOne st visible).2.2 then 1 else 0) := by
  cases st with
  | mk imp proc => cases imp <;> cases proc <;> cases visible <;> simp [processDomOne, flagN]

end LoggingDriver

namespace LoggingDriver

open DevtoolsModel

theorem processDomLoggables_spec (id : Nat) :
    ∀ (doms : List DomLoggable) (states : List (Nat × LoggingState)),
      flagN (getOrCreateLoggingState (processDomLoggables doms states).1 id).impressionLogged =
        flagN (getOrCreateLoggingState states id).impressionLogged +
          (processDomLoggables doms states).2.1.count id ∧
      flagN (getOrCreateLoggingState (processDomLoggables doms states).1 id).processed =
        flagN (getOrCreateLoggingState states id).processed +
          (processDomLoggables doms states).2.2.count id ∧
      (id ∉ doms.map DomLoggable.id → (processDomLoggables doms states).2.1.count id = 0) := by
  intro doms
  induction doms with
  | nil => intro states; simp [processDomLoggables]
  | cons d rest ih =>
    intro states
    simp only [processDomLoggables]
    obtain ⟨ih1, ih2, ih3⟩ :=
      ih (mapSet d.id (processDomOne (getOrCreateLoggingState states d.id) d.visible).1 states)
    by_cases hid : d.id = id
    · subst hid
      rw [getOrCreate_mapSet_self] at ih1 ih2
      refine ⟨?_, ?_, ?_⟩
      · rw [ih1, processDomOne_impression]
        cases hb : (processDomOne (getOrCreateLoggingState states d.id) d.visible).2.1 with
        | false => simp [List.count_append, count_single]
        | true => simp [List.count_append, count_single]; omega
      · rw [ih2, processDomOne_processed]
        cases hb : (processDomOne (getOrCreateLoggingState states d.id) d.visible).2.2 with
        | false => simp [List.count_append, count_single]
        | true => simp [List.count_append, count_single]; omega
      · intro h
        simp at h
    · rw [getOrCreate_mapSet_ne _ _ _ _ hid] at ih1 ih2
      have hne : (d.id == id) = false := by simp [hid]
      refine ⟨?_, ?_, ?_⟩
      · rw [ih1]
        cases hb : (processDomOne (getOrCreateLoggingState states d.id) d.visible).2.1 <;>
          simp [List.count_append, List.count_cons, hne]
      · rw [ih2]
        cases hb : (processDomOne (getOrCreateLoggingState states d.id) d.visible).2.2 <;>
          simp [List.count_append, List.count_cons, hne]
      · intro h
        simp only [List.map_cons, List.mem_cons] at h
        push_neg at h
        cases hb : (processDomOne (getOrCreateLoggingState states d.id) d.visible).2.1 <;>
          simp [List.count_append, List.count_cons, hne, ih3 h.2]

theorem processNonDomLoggables_spec (id : Nat) :
    ∀ (entries : List NonDomEntry) (states : List (Nat × LoggingState)),
      (getOrCreateLoggingState (processNonDomLoggables entries states).1 id).processed =
        (getOrCreateLoggingState states id).processed ∧
      ((processNonDomLoggables entries states).2.1.count id +
          ((processNonDomLoggables entries states).2.2.map NonDomEntry.id).count id =
        (entries.map NonDomEntry.id).count id) ∧
      flagN (getOrCreateLoggingState states id).impressionLogged ≤
        flagN
          (getOrCreateLoggingState (processNonDomLoggables entries states).1
            id).impressionLogged := by
  intro entries
  induction entries with
  | nil => intro states; simp [processNonDomLoggables]
  | cons e rest ih =>
    intro states
    by_cases hv : nonDomVisible states e
    · simp only [processNonDomLoggables, if_pos hv]
      obtain ⟨ih1, ih2, ih3⟩ :=
        ih (mapSet e.id
          (⟨true, (getOrCreateLoggingState states e.id).processed⟩ : LoggingState) states)
      by_cases hid : e.id = id
      · subst hid
        rw [getOrCreate_mapSet_self] at ih1 ih3
        refine ⟨?_, ?_, ?_⟩
        · exact ih1
        · simp only [List.map_cons]
          simp [List.count_cons]
          omega
        · exact le_trans (flagN_le_one _) (le_trans (le_of_eq rfl) ih3)
      · rw [getOrCreate_mapSet_ne _ _ _ _ hid] at ih1 ih3
        have hne : (e.id == id) = false := by simp [hid]
        refine ⟨ih1, ?_, ih3⟩
        simp only [List.map_cons]
        simp [List.count_cons, hne]
        omega
    · simp only [processNonDomLoggables, if_neg hv]
      obtain ⟨ih1, ih2, ih3⟩ :=
        ih (mapSet e.id (getOrCreateLoggingState states e.id) states)
      by_cases hid : e.id = id
      · subst hid
        rw [getOrCreate_mapSet_self] at ih1 ih3
        refine ⟨ih1, ?_, ih3⟩
        simp only [List.map_cons]
        simp [List.count_cons]
        omega
      · rw [getOrCreate_mapSet_ne _ _ _ _ hid] at ih1 ih3
        have hne : (e.id == id) = false := by simp [hid]
        refine ⟨ih1, ?_, ih3⟩
        simp only [List.map_cons]
        simp [List.count_cons, hne]
        omega

end LoggingDriver

namespace LoggingDriver

open DevtoolsModel

theorem process_processed (id : Nat) (hid : Bool) (doms : List DomLoggable)
    (s : DriverState) :
    flagN (getOrCreateLoggingState (process hid doms s).state.states id).processed =
      flagN (getOrCreateLoggingState s.states id).processed +
        (process hid doms s).installs.count id := by
  cases hid with
  | true => simp [process]
  | false =>
    obtain ⟨hd1, hd2, hd3⟩ := processDomLoggables_spec id doms s.states
    obtain ⟨hn1, hn2, hn3⟩ :=
      processNonDomLoggables_spec id s.nonDomRegistered (processDomLoggables doms s.states).1
    show flagN
        (getOrCreateLoggingState
          (processNonDomLoggables s.nonDomRegistered
            (processDomLoggables doms s.states).1).1 id).processed =
      flagN (getOrCreateLoggingState s.states id).processed +
        (processDomLoggables doms s.states).2.2.count id
    rw [hn1, hd2]

theorem process_impression_mono (id : Nat) (hid : Bool) (doms : List DomLoggable)
    (s : DriverState) :
    flagN (getOrCreateLoggingState s.states id).impressionLogged ≤
      flagN (getOrCreateLoggingState (process hid doms s).state.states id).impressionLogged := by
  cases hid with
  | true => simp [process]
  | false =>
    obtain ⟨hd1, hd2, hd3⟩ := processDomLoggables_spec id doms s.states
    obtain ⟨hn1, hn2, hn3⟩ :=
      processNonDomLoggables_spec id s.nonDomRegistered (processDomLoggables doms s.states).1
    show flagN (getOrCreateLoggingState s.states id).impressionLogged ≤
      flagN
        (getOrCreateLoggingState
          (processNonDomLoggables s.nonDomRegistered
            (processDomLoggables doms s.states).1).1 id).impressionLogged
    omega

theorem process_no_registry (id : Nat) (hid : Bool) (doms : List DomLoggable)
    (s : DriverState)
    (hreg : (s.nonDomRegistered.map NonDomEntry.id).count id = 0) :
    flagN (getOrCreateLoggingState s.states id).impressionLogged +
        (process hid doms s).impressions.count id ≤
      flagN (getOrCreateLoggingState (process hid doms s).state.states id).impressionLogged ∧
    ((process hid doms s).state.nonDomRegistered.map NonDomEntry.id).count id = 0 := by
  cases hid with
  | true => simp [process, hreg]
  | false =>
    obtain ⟨hd1, hd2, hd3⟩ := processDomLoggables_spec id doms s.states
    obtain ⟨hn1, hn2, hn3⟩ :=
      processNonDomLoggables_spec id s.nonDomRegistered (processDomLoggables doms s.states).1
    constructor
    · show flagN (getOrCreateLoggingState s.states id).impressionLogged +
          ((processDomLoggables doms s.states).2.1 ++
            (processNonDomLoggables s.nonDomRegistered
              (processDomLoggables doms s.states).1).2.1).count id ≤
        flagN
          (getOrCreateLoggingState
            (processNonDomLoggables s.nonDomRegistered
              (processDomLoggables doms s.states).1).1 id).impressionLogged
      rw [List.count_append]
      omega
    · show ((processNonDomLoggables s.nonDomRegistered
          (processDomLoggables doms s.states).1).2.2.map NonDomEntry.id).count id = 0
      omega

theorem process_not_in_doms (id : Nat) (hid : Bool) (doms : List DomLoggable)
    (s : DriverState) (hdom : id ∉ doms.map DomLoggable.id) :
    (process hid doms s).impressions.count id +
        ((process hid doms s).state.nonDomRegistered.map NonDomEntry.id).count id =
      (s.nonDomRegistered.map NonDomEntry.id).count id := by
  cases hid with
  | true => simp [process]
  | false =>
    obtain ⟨hd1, hd2, hd3⟩ := processDomLoggables_spec id doms s.states
    obtain ⟨hn1, hn2, hn3⟩ :=
      processNonDomLoggables_spec id s.nonDomRegistered (processDomLoggables doms s.states).1
    have hdc := hd3 hdom
    show ((processDomLoggables doms s.states).2.1 ++
          (processNonDomLoggables s.nonDomRegistered
            (processDomLoggables doms s.states).1).2.1).count id +
        ((processNonDomLoggables s.nonDomRegistered
          (processDomLoggables doms s.states).1).2.2.map NonDomEntry.id).count id =
      (s.nonDomRegistered.map NonDomEntry.id).count id
    rw [List.count_append]
    omega

theorem runProcesses_processed (id : Nat) :
    ∀ (runs : List (Bool × List DomLoggable)) (s : DriverState),
      flagN (getOrCreateLoggingState (runProcesses runs s).state.states id).processed =
        flagN (getOrCreateLoggingState s.states id).processed +
          (runProcesses runs s).installs.count id := by
  intro runs
  induction runs with
  | nil => intro s; simp [runProcesses]
  | cons r rest ih =>
    intro s
    have h1 := process_processed id r.1 r.2 s
    have h2 := ih (process r.1 r.2 s).state
    show flagN
        (getOrCreateLoggingState
          (runProcesses rest (process r.1 r.2 s).state).state.states id).processed =
      flagN (getOrCreateLoggingState s.states id).processed +
        ((process r.1 r.2 s).installs ++
          (runProcesses rest (process r.1 r.2 s).state).installs).count id
    rw [List.count_append]
    omega

theorem runProcesses_impression_mono (id : Nat) :
    ∀ (runs : List (Bool × List DomLoggable)) (s : DriverState),
      flagN (getOrCreateLoggingState s.states id).impressionLogged ≤
        flagN
          (getOrCreateLoggingState (runProcesses runs s).state.states
            id).impressionLogged := by
  intro runs
  induction runs with
  | nil => intro s; simp [runProcesses]
  | cons r rest ih =>
    intro s
    exact le_trans (process_impression_mono id r.1 r.2 s) (ih (process r.1 r.2 s).state)

theorem runProcesses_no_registry (id : Nat) :
    ∀ (runs : List (Bool × List DomLoggable)) (s : DriverState),
      (s.nonDomRegistered.map NonDomEntry.id).count id = 0 →
      flagN (getOrCreateLoggingState s.states id).impressionLogged +
          (runProcesses runs s).impressions.count id ≤
        flagN
          (getOrCreateLoggingState (runProcesses runs s).state.states
            id).impressionLogged ∧
      ((runProcesses runs s).state.nonDomRegistered.map NonDomEntry.id).count id = 0 := by
  intro runs
  induction runs with
  | nil => intro s hreg; simp [runProcesses, hreg]
  | cons r rest ih =>
    intro s hreg
    obtain ⟨ha, hb⟩ := process_no_registry id r.1 r.2 s hreg
    obtain ⟨ihc, ihd⟩ := ih (process r.1 r.2 s).state hb
    constructor
    · show flagN (getOrCreateLoggingState s.states id).impressionLogged +
          ((process r.1 r.2 s).impressions ++
            (runProcesses rest (process r.1 r.2 s).state).impressions).count id ≤
        flagN
          (getOrCreateLoggingState
            (runProcesses rest (process r.1 r.2 s).state).state.states id).impressionLogged
      rw [List.count_append]
      omega
    · exact ihd

theorem runProcesses_not_in_doms (id : Nat) :
    ∀ (runs : List (Bool × List DomLoggable)) (s : DriverState),
      (∀ r ∈ runs, id ∉ r.2.map DomLoggable.id) →
      (runProcesses runs s).impressions.count id +
          ((runProcesses runs s).state.nonDomRegistered.map NonDomEntry.id).count id =
        (s.nonDomRegistered.map NonDomEntry.id).count id := by
  intro runs
  induction runs with
  | nil => intro s h; simp [runProcesses]
  | cons r rest ih =>
    intro s h
    have hd := process_not_in_doms id r.1 r.2 s (h r (List.mem_cons_self r rest))
    have hrest := ih (process r.1 r.2 s).state (fun q hq => h q (List.mem_cons_of_mem r hq))
    show ((process r.1 r.2 s).impressions ++
          (runProcesses rest (process r.1 r.2 s).state).impressions).count id +
        ((runProcesses rest
          (process r.1 r.2 s).state).state.nonDomRegistered.map NonDomEntry.id).count id =
      (s.nonDomRegistered.map NonDomEntry.id).count id
    rw [List.count_append]
    omega

/-- Claim C7: the cached `impressionLogged` and `processed` flags are monotone
under `process`: across any sequence of `process` runs, a flag once `true` is
never reset, so (when the non-DOM registry has no duplicates and no DOM
loggable shares its identity with a registered non-DOM loggable) each
loggable appears in the concatenated `logImpressions` batches at most once
and has its interaction event listeners installed at most once. -/
theorem loggingState_flags_monotone (runs : List (Bool × List DomLoggable))
    (s : DriverState) (id : Nat)
    (hnodup : (s.nonDomRegistered.map NonDomEntry.id).Nodup)
    (hdisj : ∀ r ∈ runs, ∀ i ∈ r.2.map DomLoggable.id,
      i ∉ s.nonDomRegistered.map NonDomEntry.id) :
    ((getOrCreateLoggingState s.states id).impressionLogged = true →
      (getOrCreateLoggingState (runProcesses runs s).state.states id).impressionLogged =
        true) ∧
    ((getOrCreateLoggingState s.states id).processed = true →
      (getOrCreateLoggingState (runProcesses runs s).state.states id).processed = true) ∧
    (runProcesses runs s).impressions.count id ≤ 1 ∧
    (runProcesses runs s).installs.count id ≤ 1 := by
  refine ⟨?_, ?_, ?_, ?_⟩
  · intro h
    have hm := runProcesses_impression_mono id runs s
    have h1 : flagN (getOrCreateLoggingState s.states id).impressionLogged = 1 :=
      (flagN_eq_one_iff _).mpr h
    have h2 := flagN_le_one
      (getOrCreateLoggingState (runProcesses runs s).state.states id).impressionLogged
    exact (flagN_eq_one_iff _).mp (by omega)
  · intro h
    have he := runProcesses_processed id runs s
    have h1 : flagN (getOrCreateLoggingState s.states id).processed = 1 :=
      (flagN_eq_one_iff _).mpr h
    have h2 := flagN_le_one
      (getOrCreateLoggingState (runProcesses runs s).state.states id).processed
    exact (flagN_eq_one_iff _).mp (by omega)
  · by_cases hin : id ∈ s.nonDomRegistered.map NonDomEntry.id
    · have hforall : ∀ r ∈ runs, id ∉ r.2.map DomLoggable.id :=
        fun r hr hmem => hdisj r hr id hmem hin
      have heq := runProcesses_not_in_doms id runs s hforall
      have hle := List.nodup_iff_count_le_one.mp hnodup id
      omega
    · have hreg : (s.nonDomRegistered.map NonDomEntry.id).count id = 0 :=
        List.count_eq_zero.mpr hin
      obtain ⟨ha, _⟩ := runProcesses_no_registry id runs s hreg
      have h1 := flagN_le_one
        (getOrCreateLoggingState (runProcesses runs s).state.states id).impressionLogged
      omega
  · have he := runProcesses_processed id runs s
    have h1 := flagN_le_one
      (getOrCreateLoggingState (runProcesses runs s).state.states id).processed
    omega

theorem loggingState_flags_monotone_witness :
    ((getOrCreateLoggingState
        (DriverState.states { initialDriverState with nonDomRegistered := [⟨7, none⟩] })
        3).impressionLogged = true →
      (getOrCreateLoggingState
        (runProcesses [(false, [⟨3, true⟩]), (false, [⟨3, true⟩])]
          { initialDriverState with nonDomRegistered := [⟨7, none⟩] }).state.states
        3).impressionLogged = true) ∧
    ((getOrCreateLoggingState
        (DriverState.states { initialDriverState with nonDomRegistered := [⟨7, none⟩] })
        3).processed = true →
      (getOrCreateLoggingState
        (runProcesses [(false, [⟨3, true⟩]), (false, [⟨3, true⟩])]
          { initialDriverState with nonDomRegistered := [⟨7, none⟩] }).state.states
        3).processed = true) ∧
    (runProcesses [(false, [⟨3, true⟩]), (false, [⟨3, true⟩])]
      { initialDriverState with nonDomRegistered := [⟨7, none⟩] }).impressions.count 3 ≤ 1 ∧
    (runProcesses [(false, [⟨3, true⟩]), (false, [⟨3, true⟩])]
      { initialDriverState with nonDomRegistered := [⟨7, none⟩] }).installs.count 3 ≤ 1 :=
  loggingState_flags_monotone [(false, [⟨3, true⟩]), (false, [⟨3, true⟩])]
    { initialDriverState with nonDomRegistered := [⟨7, none⟩] } 3 (by decide) (by decide)

example :
    (runProcesses [(false, [⟨3, true⟩]), (false, [⟨3, true⟩])]
      { initialDriverState with nonDomRegistered := [⟨7, none⟩] }).impressions = [3, 7] := by
  decide

example :
    (runProcesses [(false, [⟨3, true⟩]), (false, [⟨3, true⟩])]
      { initialDriverState with nonDomRegistered := [⟨7, none⟩] }).installs = [3] := by
  decide

end LoggingDriver
